import Mathlib

/-!
Verification of the entity-relation graph construction scripts
(`scripts/qa_QA_ner_graph.py` and `scripts/relation_extraction_graph.py`).

The NLP oracle (spaCy) is external: a parsed text unit is represented by the
data the scripts actually read from it — entity mentions carrying their raw
surface text, NER label, the identity of the sentence span they lie in, and
their syntactic root token; sentences carrying their tokens' lemmas; and a
dependency-distance oracle `dist : Nat → Nat → Option Nat` over root-token
identifiers standing for `dependency_distance` (which returns `None` when the
two tokens are unreachable).  The synonym map is built at runtime from an
input document that is not part of the repository, so it is passed in as an
explicit association list, per the read-only-mapping contract.

Python dictionaries are modelled as association lists with in-place update
(insertion order of keys preserved, inserting an existing key replaces the
value at its position), which is exactly Python/networkx behaviour for
`{k: v for ...}` comprehensions and for `add_edge` attribute overwriting.
-/

/-- An entity mention as the scripts observe it: raw surface text
(`ent.text`), NER label (`ent.label_`), the sentence span it belongs to
(`ent.sent`, encoded by an identifier), and its root token (`ent.root`,
encoded by a token identifier usable with the distance oracle). -/
structure Ent where
  text : String
  label : String
  sentId : Nat
  root : Nat
deriving DecidableEq, Repr

/-- A token of a sentence, reduced to what the scripts read: its lemma
(`token.lemma_`). -/
structure RToken where
  lemma_ : String
deriving DecidableEq, Repr

/-- A sentence span of a parsed document: its identity and its tokens. -/
structure RSent where
  id : Nat
  tokens : List RToken
deriving DecidableEq, Repr

/-- A parsed document: its sentence spans and its full entity list
(`doc.ents`, before any label filtering). -/
structure RDoc where
  sents : List RSent
  ents : List Ent
deriving DecidableEq, Repr

/-- One text unit of the directed variant, as delivered by the external
oracle: the parsed concatenated question+answer document, plus the entity
spans produced by re-parsing the gazetteer regex matches
(`nlp(match.strip()).ents[0]` in `extract_entities`), which come from
separate throwaway documents. -/
structure RUnit where
  doc : RDoc
  gaz : List Ent
deriving DecidableEq, Repr

/-- Python `dict.get k`: the entry with the given key, if any. -/
def lookupA {α β : Type} [DecidableEq α] (l : List (α × β)) (k : α) : Option β :=
  (l.find? (fun p => decide (p.1 = k))).map (fun p => p.2)

/-- Python `dict` insertion `d[k] = v`: replace the value in place if the key
is present (a dict holds each key once, so replacing the first occurrence is
exact), otherwise append the new binding at the end. -/
def upd {α β : Type} [DecidableEq α] : List (α × β) → α → β → List (α × β)
  | [], k, v => [(k, v)]
  | p :: l, k, v => if p.1 = k then (k, v) :: l else p :: upd l k v

theorem lookupA_cons {α β : Type} [DecidableEq α] (p : α × β) (l : List (α × β)) (k : α) :
    lookupA (p :: l) k = if p.1 = k then some p.2 else lookupA l k := by
  by_cases h : p.1 = k
  · simp [lookupA, List.find?_cons_of_pos, h]
  · rw [if_neg h]
    unfold lookupA
    rw [List.find?_cons_of_neg]
    simpa using h

theorem lookupA_upd {α β : Type} [DecidableEq α] (l : List (α × β)) (k : α) (v : β) (k' : α) :
    lookupA (upd l k v) k' = if k' = k then some v else lookupA l k' := by
  induction l with
  | nil =>
    by_cases h : k' = k
    · simp [upd, lookupA_cons, h]
    · have h2 : ¬ (k = k') := fun hk => h hk.symm
      simp [upd, lookupA_cons, h, h2, lookupA]
  | cons p l ih =>
    by_cases hp : p.1 = k
    · by_cases h : k' = k
      · simp [upd, hp, lookupA_cons, h]
      · have h2 : ¬ (k = k') := fun hk => h hk.symm
        have h3 : ¬ (p.1 = k') := by rw [hp]; exact h2
        simp [upd, hp, lookupA_cons, h, h2, h3]
    · by_cases h : k' = k
      · have h3 : ¬ (p.1 = k') := by rw [h]; exact hp
        subst h
        simp [upd, hp, lookupA_cons, h3, ih]
      · simp [upd, hp, lookupA_cons, h, ih]

/-- Python `str.lower()` (on the character list underlying the string;
the scripts only ever lowercase ASCII text). -/
def pyLower (s : String) : String := ⟨s.data.map Char.toLower⟩

/-- Python `str.strip()`: remove leading and trailing whitespace. -/
def pyStrip (s : String) : String :=
  ⟨((s.data.dropWhile Char.isWhitespace).reverse.dropWhile Char.isWhitespace).reverse⟩

/-- Python `s.startswith("the ")`: the four-character test the normalizer
applies to the lowercased trimmed text. -/
def pyStartsWithThe (s : String) : Bool :=
  match s.data with
  | c1 :: c2 :: c3 :: c4 :: _ => c1 = 't' && c2 = 'h' && c3 = 'e' && c4 = ' '
  | _ => false

/-- Python slicing `s[n:]`. -/
def pyDrop (s : String) (n : Nat) : String := ⟨s.data.drop n⟩

/-- `normalize_entity` (identical in both scripts): trim, strip one leading
case-insensitive article, then resolve through the synonym map
(`synonym_map.get(ent_clean.lower(), ent_clean)`). -/
def normalize_entity (synonym_map : List (String × String)) (ent_text : String) : String :=
  let ent_clean := pyStrip ent_text
  let ent_clean := if pyStartsWithThe (pyLower ent_clean) then pyDrop ent_clean 4 else ent_clean
  (lookupA synonym_map (pyLower ent_clean)).getD ent_clean

/-- Modelled from the spec's step list for the Entity Normalizer (section
4.1): (a) trim whitespace; (b) if the trimmed text starts with the
case-insensitive article followed by a space, strip exactly that
four-character piece; (c) look the remaining text up lower-cased in the
synonym map, returning the mapped canonical value on a hit and the text from
step (b) otherwise, casing preserved.  Written from the spec's words to be
compared against `normalize_entity`. -/
def normalize_spec_steps (synonym_map : List (String × String)) (raw : String) : String :=
  let stepA := pyStrip raw
  let stepB := if pyStartsWithThe (pyLower stepA) then pyDrop stepA 4 else stepA
  match lookupA synonym_map (pyLower stepB) with
  | some canonical => canonical
  | none => stepB

/-- `MAX_DEP_DISTANCE = 3` (identical in both scripts). -/
def MAX_DEP_DISTANCE : Nat := 3

/-- `RELATION_PATTERNS` from `relation_extraction_graph.py`, a dict in
declaration order; the trigger sets are written as lists (only membership is
ever observed). -/
def RELATION_PATTERNS : List (String × List String) :=
  [("is_a", ["be", "is", "are", "was", "were", "constitute", "represent"]),
   ("regulates", ["regulate", "govern", "control", "oversee", "enforce", "dictate", "manage"]),
   ("uses", ["use", "utilize", "apply", "employ", "leverage"]),
   ("based_on", ["base", "build", "derive", "depend", "develop"]),
   ("part_of", ["part", "component", "element", "segment", "member", "belong"])]

/-- The entity labels kept by `extract_entities`:
`["ORG", "PRODUCT", "GPE", "LAW", "EVENT", "TECHNOLOGY"]`. -/
def ALLOWED_LABELS : List String :=
  ["ORG", "PRODUCT", "GPE", "LAW", "EVENT", "TECHNOLOGY"]

/-- The relation kinds whose trigger set contains the given lemma, in table
order — exactly the labels for which the inner
`if token.lemma_.lower() in verbs` test of `extract_relations_in_sentence`
fires for a token with that lowercase lemma. -/
def matchedKinds (lemma_lower : String) : List String :=
  (RELATION_PATTERNS.filter (fun p => p.2.contains lemma_lower)).map (fun p => p.1)

/-- `itertools.combinations(l, 2)` / the `for i: for j in range(i+1, n)`
double loop: ordered enumeration of position pairs i < j. -/
def pairsOf {α : Type} : List α → List (α × α)
  | [] => []
  | x :: xs => xs.map (fun y => (x, y)) ++ pairsOf xs

/-- `list({ent.text.strip(): ent for ent in ents}.values())` (line 97 of the
undirected script, line 121 of the directed one): deduplicate mentions by
trimmed raw surface text with Python dict-comprehension semantics — a key
sits at the position of its first occurrence, and its value is the last
mention carrying that key. -/
def dedupByText (ents : List Ent) : List Ent :=
  (ents.foldl (fun acc ent => upd acc (pyStrip ent.text) ent) []).map (fun p => p.2)

/-- Python `set.add` folded over a list, and likewise the
`if entity not in G.nodes(): G.add_node(entity)` loop: insert each element
not already present. -/
def addAll (acc : List String) (xs : List String) : List String :=
  xs.foldl (fun a x => if x ∈ a then a else a ++ [x]) acc

/-- Node insertion as performed implicitly by `networkx.add_edge`. -/
def addNode (ns : List String) (x : String) : List String :=
  if x ∈ ns then ns else ns ++ [x]

/-- `networkx.DiGraph` as the scripts use it: a node set and, for each
ordered pair, at most one edge with a `label` attribute. -/
structure DiGraph where
  nodes : List String
  edges : List ((String × String) × String)
deriving DecidableEq, Repr

/-- `G.add_edge(u, v, label=lab)` on a `DiGraph`: inserts both endpoints and
upserts the edge attribute (re-adding an existing ordered pair overwrites its
label). -/
def DiGraph.add_edge (g : DiGraph) (u v lab : String) : DiGraph :=
  { nodes := addNode (addNode g.nodes u) v,
    edges := upd g.edges (u, v) lab }

/-- The label attribute of the edge on the ordered pair (u, v), if present. -/
def DiGraph.lookupEdge (g : DiGraph) (u v : String) : Option String :=
  lookupA g.edges (u, v)

/-- `G.has_edge(u, v)` on a `DiGraph`: the exact ordered pair is tested. -/
def DiGraph.has_edge (g : DiGraph) (u v : String) : Bool :=
  (g.lookupEdge u v).isSome

/-- Undirected-edge key equality: `networkx.Graph` identifies (u, v) with
(v, u). -/
def pairKeyEq (p q : String × String) : Bool :=
  (p.1 == q.1 && p.2 == q.2) || (p.1 == q.2 && p.2 == q.1)

/-- `networkx.Graph` as the undirected script uses it: a node set and, for
each unordered pair, at most one edge with a `title` attribute. -/
structure UGraph where
  nodes : List String
  edges : List ((String × String) × String)
deriving DecidableEq, Repr

/-- `G.add_edge(u, v, title=t)` on an undirected `Graph`: inserts both
endpoints and upserts the edge attribute under unordered-pair identity
(re-adding overwrites the title, the stored key keeps its original
orientation). -/
def UGraph.add_edge (g : UGraph) (u v t : String) : UGraph :=
  { nodes := addNode (addNode g.nodes u) v,
    edges :=
      if g.edges.any (fun e => pairKeyEq e.1 (u, v)) then
        g.edges.map (fun e => if pairKeyEq e.1 (u, v) then (e.1, t) else e)
      else
        g.edges ++ [((u, v), t)] }

/-- The title attribute of the undirected edge between u and v, if present. -/
def UGraph.lookupEdge (g : UGraph) (u v : String) : Option String :=
  (g.edges.find? (fun e => pairKeyEq e.1 (u, v))).map (fun e => e.2)

/-- `sent.ents`: the document entities lying in the given sentence span. -/
def sentEnts (d : RDoc) (s : RSent) : List Ent :=
  d.ents.filter (fun e => e.sentId == s.id)

/-- `extract_entities` (identical in both scripts): keep the parsed
document's entities whose label is in the allow-list, and supplement with the
entity spans obtained from re-parsing the gazetteer regex matches (the latter
delivered by the oracle as `gaz`; the Python builds a set, so the list order
is one admissible iteration order). -/
def extract_entities (d : RDoc) (gaz : List Ent) : List Ent :=
  d.ents.filter (fun e => ALLOWED_LABELS.contains e.label) ++ gaz

/-- The body of the pair loop inside `extract_relations_in_sentence`: compute
the dependency distance of the pair's root tokens and, if it is defined
(`dist is not None`) and at most `MAX_DEP_DISTANCE`, produce the triple
`(e1.text, rel_label, e2.text)`. -/
def relation_triple (dist : Nat → Nat → Option Nat) (rel : String) (pr : Ent × Ent) :
    Option (String × String × String) :=
  match dist pr.1.root pr.2.root with
  | some d => if d ≤ MAX_DEP_DISTANCE then some (pr.1.text, rel, pr.2.text) else none
  | none => none

/-- `extract_relations_in_sentence` (`relation_extraction_graph.py` lines
98-110): for every token of the sentence and every relation pattern whose
trigger set contains the token's lowercase lemma, append a triple
`(e1.text, rel_label, e2.text)` for every combination of two entities of
`sent.ents` whose dependency distance is defined and at most
`MAX_DEP_DISTANCE`. -/
def extract_relations_in_sentence (dist : Nat → Nat → Option Nat)
    (ents_in_sent : List Ent) (toks : List RToken) : List (String × String × String) :=
  if ents_in_sent.length < 2 then [] else
    toks.foldl (fun relations token =>
      RELATION_PATTERNS.foldl (fun relations pat =>
        if pat.2.contains (pyLower token.lemma_) then
          relations ++ (pairsOf ents_in_sent).filterMap (relation_triple dist pat.1)
        else relations) relations) []

/-- The strong-edge pass of `build_graph_with_relations` (lines 127-130):
for every sentence of the unit's document, add a directed edge between the
normalized endpoint texts of every extracted relation triple, labeled with
its relation kind. -/
def strong_pass (m : List (String × String)) (dist : Nat → Nat → Option Nat)
    (g : DiGraph) (d : RDoc) : DiGraph :=
  d.sents.foldl (fun g s =>
    (extract_relations_in_sentence dist (sentEnts d s) s.tokens).foldl
      (fun g tr => g.add_edge (normalize_entity m tr.1) (normalize_entity m tr.2.2) tr.2.1) g) g

/-- The body of the weak-edge loop of `build_graph_with_relations` (lines
133-137): for a pair of deduplicated mentions lying in different sentences,
add a `co_occurs` edge between their normalized texts unless the ordered pair
already has an edge. -/
def weak_step (m : List (String × String)) (g : DiGraph) (e1 e2 : Ent) : DiGraph :=
  if e1.sentId ≠ e2.sentId then
    if g.has_edge (normalize_entity m e1.text) (normalize_entity m e2.text) then g
    else g.add_edge (normalize_entity m e1.text) (normalize_entity m e2.text) "co_occurs"
  else g

/-- The weak-edge pass of `build_graph_with_relations`: the `i < j` double
loop over the unit's deduplicated mentions, running `weak_step` on each
pair. -/
def weak_pass (m : List (String × String)) (g : DiGraph) (ents : List Ent) : DiGraph :=
  (pairsOf ents).foldl (fun g pr => weak_step m g pr.1 pr.2) g

/-- The per-unit loop of `build_graph_with_relations` (lines 116-137),
threading the graph and the `all_entities` accumulator: per unit, extract and
deduplicate the entities, record their normalized labels, run the strong
pass over the unit's sentences, then the weak pass over the deduplicated
mentions. -/
def build_graph_with_relations_aux (m : List (String × String))
    (dist : Nat → Nat → Option Nat) :
    List RUnit → DiGraph → List String → DiGraph × List String
  | [], g, acc => (g, acc)
  | u :: us, g, acc =>
    let ents_all := dedupByText (extract_entities u.doc u.gaz)
    let ents_norm := ents_all.map (fun e => normalize_entity m e.text)
    build_graph_with_relations_aux m dist us
      (weak_pass m (strong_pass m dist g u.doc) ents_all)
      (addAll acc ents_norm)

/-- `build_graph_with_relations` (lines 112-141), up to the point where the
graph is handed to component coloring and export: process every unit, then
add every recorded entity that has no edge as an isolated node. -/
def build_graph_with_relations (m : List (String × String))
    (dist : Nat → Nat → Option Nat) (units : List RUnit) : DiGraph :=
  let r := build_graph_with_relations_aux m dist units ⟨[], []⟩ []
  { r.1 with nodes := addAll r.1.nodes r.2 }

/-- The body of the pair loop of the undirected `build_graph`
(`qa_QA_ner_graph.py` lines 103-110): same-sentence pairs get a strong edge
when the dependency distance is defined and within the threshold,
different-sentence pairs always get a weak edge. -/
def pair_step (m : List (String × String)) (dist : Nat → Nat → Option Nat)
    (idx : Nat) (g : UGraph) (e1 e2 : Ent) : UGraph :=
  let n1 := normalize_entity m e1.text
  let n2 := normalize_entity m e2.text
  if e1.sentId = e2.sentId then
    match dist e1.root e2.root with
    | some d =>
      if d ≤ MAX_DEP_DISTANCE then
        g.add_edge n1 n2 ("Strong: Dep-path ≤" ++ toString MAX_DEP_DISTANCE ++ " in Q" ++ toString idx)
      else g
    | none => g
  else
    g.add_edge n1 n2 ("Weak: Co-occurs in Q" ++ toString idx)

/-- The `i < j` double loop of the undirected `build_graph` over the unit's
deduplicated mentions. -/
def unit_pass (m : List (String × String)) (dist : Nat → Nat → Option Nat)
    (idx : Nat) (g : UGraph) (ents : List Ent) : UGraph :=
  (pairsOf ents).foldl (fun g pr => pair_step m dist idx g pr.1 pr.2) g

/-- The per-unit loop of the undirected `build_graph` (lines 94-110), with
`idx` the 1-based unit index from `enumerate(qa_list, start=1)`: each unit is
the oracle's `extract_entities` output for its question+answer text. -/
def build_graph_aux (m : List (String × String)) (dist : Nat → Nat → Option Nat) :
    List (List Ent) → Nat → UGraph → List String → UGraph × List String
  | [], _, g, acc => (g, acc)
  | u :: us, idx, g, acc =>
    let ents := dedupByText u
    let ents_norm := ents.map (fun e => normalize_entity m e.text)
    build_graph_aux m dist us (idx + 1) (unit_pass m dist idx g ents) (addAll acc ents_norm)

/-- `build_graph` (lines 90-114), up to the point where the graph is handed
to component coloring and export: process every unit starting at index 1,
then add every recorded entity that has no edge as an isolated node. -/
def build_graph (m : List (String × String)) (dist : Nat → Nat → Option Nat)
    (units : List (List Ent)) : UGraph :=
  let r := build_graph_aux m dist units 1 ⟨[], []⟩ []
  { r.1 with nodes := addAll r.1.nodes r.2 }


theorem lookupEdge_add_edge (g : DiGraph) (a b lab u v : String) :
    (g.add_edge a b lab).lookupEdge u v =
      if (u, v) = (a, b) then some lab else g.lookupEdge u v := by
  simp [DiGraph.add_edge, DiGraph.lookupEdge, lookupA_upd]

theorem lookupEdge_none_of_has_edge_false (g : DiGraph) (u v : String)
    (h : g.has_edge u v = false) : g.lookupEdge u v = none := by
  cases hE : g.lookupEdge u v with
  | none => rfl
  | some b =>
    rw [DiGraph.has_edge, hE] at h
    simp at h

theorem weak_step_lookup (m : List (String × String)) (g : DiGraph) (e1 e2 : Ent)
    (u v : String) :
    (weak_step m g e1 e2).lookupEdge u v = g.lookupEdge u v ∨
    ((weak_step m g e1 e2).lookupEdge u v = some "co_occurs" ∧
      g.lookupEdge u v = none) := by
  by_cases hs : e1.sentId ≠ e2.sentId
  · by_cases he : g.has_edge (normalize_entity m e1.text) (normalize_entity m e2.text) = true
    · left
      simp [weak_step, hs, he]
    · have he' : g.has_edge (normalize_entity m e1.text) (normalize_entity m e2.text) = false :=
        Bool.eq_false_iff.mpr he
      have hw : weak_step m g e1 e2 =
          g.add_edge (normalize_entity m e1.text) (normalize_entity m e2.text) "co_occurs" := by
        simp [weak_step, hs, he]
      by_cases hp : (u, v) = (normalize_entity m e1.text, normalize_entity m e2.text)
      · right
        have hnone : g.lookupEdge u v = none := by
          obtain ⟨h1, h2⟩ := Prod.ext_iff.mp hp
          dsimp at h1 h2
          rw [h1, h2]
          exact lookupEdge_none_of_has_edge_false g _ _ he'
        refine ⟨?_, hnone⟩
        rw [hw, lookupEdge_add_edge, if_pos hp]
      · left
        rw [hw, lookupEdge_add_edge, if_neg hp]
  · left
    simp [weak_step, hs]

theorem weak_fold_preserves (m : List (String × String)) (ps : List (Ent × Ent)) :
    ∀ (g : DiGraph) (u v L : String), g.lookupEdge u v = some L →
      (ps.foldl (fun g pr => weak_step m g pr.1 pr.2) g).lookupEdge u v = some L := by
  induction ps with
  | nil => intro g u v L h; simpa using h
  | cons pr ps ih =>
    intro g u v L h
    refine ih (weak_step m g pr.1 pr.2) u v L ?_
    rcases weak_step_lookup m g pr.1 pr.2 u v with h1 | ⟨h1, h2⟩
    · rw [h1]; exact h
    · rw [h2] at h; exact Option.noConfusion h

theorem weak_fold_new (m : List (String × String)) (ps : List (Ent × Ent)) :
    ∀ (g : DiGraph) (u v L : String),
      (ps.foldl (fun g pr => weak_step m g pr.1 pr.2) g).lookupEdge u v = some L →
      g.lookupEdge u v = some L ∨ (g.lookupEdge u v = none ∧ L = "co_occurs") := by
  induction ps with
  | nil => intro g u v L h; left; simpa using h
  | cons pr ps ih =>
    intro g u v L h
    rcases ih (weak_step m g pr.1 pr.2) u v L h with h1 | ⟨h1, h2⟩
    · rcases weak_step_lookup m g pr.1 pr.2 u v with hw | ⟨hw, hg⟩
      · left; rw [← hw]; exact h1
      · rw [hw] at h1
        right
        exact ⟨hg, (Option.some.injEq _ _ ▸ h1 : "co_occurs" = L).symm⟩
    · rcases weak_step_lookup m g pr.1 pr.2 u v with hw | ⟨hw, hg⟩
      · right; exact ⟨hw ▸ h1, h2⟩
      · rw [hw] at h1; exact Option.noConfusion h1

/-- C1: the cross-sentence fallback pass of the directed variant adds a
`co_occurs` edge on an ordered pair only when that exact ordered pair carries
no edge yet, and it never changes the label of any edge already present — in
particular an ordered pair already carrying a verb-derived relation edge
keeps that label through every weak pass.  `weak_pass` is exactly the
different-sentence co-occurrence loop run once per unit by
`build_graph_with_relations`, so quantifying over the incoming graph covers
the pass of the same unit and of every later unit. -/
theorem C1_co_occurs_fallback_never_overwrites (m : List (String × String))
    (ents : List Ent) (g : DiGraph) (u v L : String) :
    (g.lookupEdge u v = some L → (weak_pass m g ents).lookupEdge u v = some L) ∧
    ((weak_pass m g ents).lookupEdge u v = some L →
      g.lookupEdge u v = some L ∨ (g.lookupEdge u v = none ∧ L = "co_occurs")) :=
  ⟨fun h => weak_fold_preserves m (pairsOf ents) g u v L h,
   fun h => weak_fold_new m (pairsOf ents) g u v L h⟩

theorem C1_witness :
    (weak_pass [] (DiGraph.add_edge ⟨[], []⟩ "AWS" "Docker" "regulates")
        [⟨"AWS", "ORG", 0, 0⟩, ⟨"Docker", "ORG", 1, 1⟩]).lookupEdge "AWS" "Docker" =
      some "regulates" :=
  (C1_co_occurs_fallback_never_overwrites []
    [⟨"AWS", "ORG", 0, 0⟩, ⟨"Docker", "ORG", 1, 1⟩]
    (DiGraph.add_edge ⟨[], []⟩ "AWS" "Docker" "regulates") "AWS" "Docker" "regulates").1
    (by decide)

/-- C5: `normalize_entity` coincides with the spec's step list (trim, strip
one four-character case-insensitive leading article, case-insensitive
synonym lookup returning the canonical value on a hit and the stripped text
with its original casing on a miss); both sides are total Lean functions, so
normalization always returns a string and cannot raise. -/
theorem C5_normalize_entity_follows_spec_steps (m : List (String × String)) (raw : String) :
    normalize_entity m raw = normalize_spec_steps m raw := by
  unfold normalize_entity normalize_spec_steps
  cases h : lookupA m (pyLower (if pyStartsWithThe (pyLower (pyStrip raw)) then
    pyDrop (pyStrip raw) 4 else pyStrip raw)) <;> simp [h]

/-- C6: in the undirected variant, a same-sentence pair whose dependency
distance is defined and exactly the threshold gets a strong edge between its
normalized labels, while a distance of 4 or more — or an undefined distance —
leaves the graph untouched for that pair. -/
theorem C6_threshold_boundary (m : List (String × String))
    (dist : Nat → Nat → Option Nat) (idx : Nat) (g : UGraph) (e1 e2 : Ent)
    (hs : e1.sentId = e2.sentId) :
    (dist e1.root e2.root = some MAX_DEP_DISTANCE →
      pair_step m dist idx g e1 e2 =
        g.add_edge (normalize_entity m e1.text) (normalize_entity m e2.text)
          ("Strong: Dep-path ≤" ++ toString MAX_DEP_DISTANCE ++ " in Q" ++ toString idx)) ∧
    (∀ d, dist e1.root e2.root = some d → MAX_DEP_DISTANCE < d →
      pair_step m dist idx g e1 e2 = g) ∧
    (dist e1.root e2.root = none → pair_step m dist idx g e1 e2 = g) := by
  refine ⟨fun h => ?_, fun d h hd => ?_, fun h => ?_⟩
  · simp [pair_step, hs, h]
  · simp [pair_step, hs, h, Nat.not_le.mpr hd]
  · simp [pair_step, hs, h]

theorem C6_witness :
    pair_step [] (fun _ _ => some 3) 1 ⟨[], []⟩ ⟨"AWS", "ORG", 0, 0⟩ ⟨"Docker", "ORG", 0, 1⟩ =
      UGraph.add_edge ⟨[], []⟩ (normalize_entity [] "AWS") (normalize_entity [] "Docker")
        ("Strong: Dep-path ≤" ++ toString MAX_DEP_DISTANCE ++ " in Q" ++ toString 1) ∧
    pair_step [] (fun _ _ => some 4) 1 ⟨[], []⟩ ⟨"AWS", "ORG", 0, 0⟩ ⟨"Docker", "ORG", 0, 1⟩ =
      ⟨[], []⟩ :=
  ⟨(C6_threshold_boundary [] (fun _ _ => some 3) 1 ⟨[], []⟩
      ⟨"AWS", "ORG", 0, 0⟩ ⟨"Docker", "ORG", 0, 1⟩ rfl).1 rfl,
   (C6_threshold_boundary [] (fun _ _ => some 4) 1 ⟨[], []⟩
      ⟨"AWS", "ORG", 0, 0⟩ ⟨"Docker", "ORG", 0, 1⟩ rfl).2.1 4 rfl (by decide)⟩

/-- C7: in the undirected variant, a pair of deduplicated mentions lying in
different sentences always receives an undirected edge between its normalized
labels, tagged as weak co-occurrence with the unit index (`build_graph` runs
the per-unit passes with `idx` starting at 1), and the outcome never consults
the dependency-distance oracle. -/
theorem C7_cross_sentence_edge_unconditional (m : List (String × String))
    (dist : Nat → Nat → Option Nat) (idx : Nat) (g : UGraph) (e1 e2 : Ent)
    (hs : e1.sentId ≠ e2.sentId) :
    pair_step m dist idx g e1 e2 =
      g.add_edge (normalize_entity m e1.text) (normalize_entity m e2.text)
        ("Weak: Co-occurs in Q" ++ toString idx) ∧
    (∀ dist' : Nat → Nat → Option Nat,
      pair_step m dist' idx g e1 e2 = pair_step m dist idx g e1 e2) := by
  constructor
  · simp [pair_step, hs]
  · intro dist'
    simp [pair_step, hs]

theorem C7_witness :
    pair_step [] (fun _ _ => none) 1 ⟨[], []⟩ ⟨"AWS", "ORG", 0, 0⟩ ⟨"Docker", "ORG", 1, 1⟩ =
      UGraph.add_edge ⟨[], []⟩ (normalize_entity [] "AWS") (normalize_entity [] "Docker")
        ("Weak: Co-occurs in Q" ++ toString 1) :=
  (C7_cross_sentence_edge_unconditional [] (fun _ _ => none) 1 ⟨[], []⟩
    ⟨"AWS", "ORG", 0, 0⟩ ⟨"Docker", "ORG", 1, 1⟩ (by decide)).1

/-- C8 counterexample: normalization is not idempotent on all canonical
forms.  With the empty synonym map, "The The Matrix" normalizes to
"The Matrix" — a canonical form in the claim's sense — which normalizes
further to "Matrix". -/
theorem C8_counterexample :
    normalize_entity [] (normalize_entity [] "The The Matrix") ≠
      normalize_entity [] "The The Matrix" := by decide

/-- C8 amended: normalization fixes a string (so is idempotent there) as
soon as the string is already whitespace-trimmed, does not start with the
case-insensitive article followed by a space, and is either absent from the
synonym map under lowercasing or mapped to itself.  Canonical forms
violating these conditions can move again, as the counterexample shows. -/
theorem C8_idempotent_on_stable_forms (m : List (String × String)) (x : String)
    (h1 : pyStrip x = x)
    (h2 : pyStartsWithThe (pyLower x) = false)
    (h3 : lookupA m (pyLower x) = none ∨ lookupA m (pyLower x) = some x) :
    normalize_entity m x = x := by
  unfold normalize_entity
  simp only [h1, h2, Bool.false_eq_true, if_false]
  rcases h3 with h | h <;> simp [h]

theorem C8_witness : normalize_entity [("aws", "AWS")] "AWS" = "AWS" :=
  C8_idempotent_on_stable_forms [("aws", "AWS")] "AWS" (by decide) (by decide)
    (Or.inr (by decide))

/-- C10: the undirected assembler can produce a self-loop — two distinct raw
mentions in different sentences of one unit whose labels normalize to the
same canonical form yield an edge from that label to itself; nothing filters
normalization-induced label collisions before pair enumeration. -/
theorem C10_self_loop_from_label_collision :
    (build_graph [("artificial intelligence", "AI"), ("ai", "AI")] (fun _ _ => some 1)
        [[⟨"Artificial Intelligence", "ORG", 0, 0⟩, ⟨"AI", "ORG", 1, 5⟩]]).lookupEdge "AI" "AI" =
      some "Weak: Co-occurs in Q1" ∧
    normalize_entity [("artificial intelligence", "AI"), ("ai", "AI")] "Artificial Intelligence" =
      normalize_entity [("artificial intelligence", "AI"), ("ai", "AI")] "AI" ∧
    ("Artificial Intelligence" : String) ≠ "AI" :=
  ⟨by decide, by decide, by decide⟩

theorem mem_upd {α β : Type} [DecidableEq α] (l : List (α × β)) (k : α) (v : β) :
    ∀ p ∈ upd l k v, p = (k, v) ∨ p ∈ l := by
  induction l with
  | nil => intro p hp; left; simpa [upd] using hp
  | cons q l ih =>
    intro p hp
    by_cases hq : q.1 = k
    · simp only [upd, if_pos hq, List.mem_cons] at hp
      rcases hp with hp | hp
      · left; exact hp
      · right; exact List.mem_cons_of_mem q hp
    · simp only [upd, if_neg hq, List.mem_cons] at hp
      rcases hp with hp | hp
      · right; exact hp ▸ List.mem_cons_self q l
      · rcases ih p hp with h | h
        · left; exact h
        · right; exact List.mem_cons_of_mem q h

theorem upd_keys {α β : Type} [DecidableEq α] (l : List (α × β)) (k : α) (v : β) :
    (upd l k v).map Prod.fst =
      if k ∈ l.map Prod.fst then l.map Prod.fst else l.map Prod.fst ++ [k] := by
  induction l with
  | nil => simp [upd]
  | cons q l ih =>
    by_cases hq : q.1 = k
    · simp [upd, hq]
    · have hk : ¬ (k = q.1) := fun h => hq h.symm
      by_cases hmem : k ∈ l.map Prod.fst
      · simp [upd, hq, hk, hmem, ih]
      · simp [upd, hq, hk, hmem, ih]

theorem upd_keys_nodup {α β : Type} [DecidableEq α] (l : List (α × β)) (k : α) (v : β)
    (h : (l.map Prod.fst).Nodup) : ((upd l k v).map Prod.fst).Nodup := by
  rw [upd_keys]
  by_cases hmem : k ∈ l.map Prod.fst
  · simpa [hmem] using h
  · simp only [hmem, if_false]
    rw [List.nodup_append]
    refine ⟨h, List.nodup_singleton k, ?_⟩
    intro a ha hak
    exact hmem ((List.mem_singleton.mp hak) ▸ ha)

theorem dedupAssoc_lookup (es : List Ent) (k : String) :
    lookupA (es.foldl (fun acc e => upd acc (pyStrip e.text) e) []) k =
      es.reverse.find? (fun e => decide (pyStrip e.text = k)) := by
  induction es using List.reverseRecOn with
  | nil => simp [lookupA]
  | append_singleton es e ih =>
    rw [List.foldl_append]
    simp only [List.foldl_cons, List.foldl_nil]
    rw [lookupA_upd]
    rw [List.reverse_append]
    simp only [List.reverse_cons, List.reverse_nil, List.nil_append, List.singleton_append]
    by_cases h : pyStrip e.text = k
    · rw [if_pos h.symm, List.find?_cons_of_pos _ (by simpa using h)]
    · rw [if_neg (fun hk => h hk.symm), List.find?_cons_of_neg _ (by simpa using h)]
      exact ih

theorem dedupAssoc_inv (es : List Ent) :
    ∀ p ∈ es.foldl (fun acc e => upd acc (pyStrip e.text) e) [],
      pyStrip p.2.text = p.1 ∧ p.2 ∈ es := by
  induction es using List.reverseRecOn with
  | nil => intro p hp; simp at hp
  | append_singleton es e ih =>
    intro p hp
    rw [List.foldl_append] at hp
    simp only [List.foldl_cons, List.foldl_nil] at hp
    rcases mem_upd _ _ _ p hp with h | h
    · subst h
      exact ⟨rfl, by simp⟩
    · rcases ih p h with ⟨h1, h2⟩
      exact ⟨h1, by simp [h2]⟩

theorem dedupAssoc_keys_nodup (es : List Ent) :
    ((es.foldl (fun acc e => upd acc (pyStrip e.text) e) []).map Prod.fst).Nodup := by
  induction es using List.reverseRecOn with
  | nil => simp
  | append_singleton es e ih =>
    rw [List.foldl_append]
    simp only [List.foldl_cons, List.foldl_nil]
    exact upd_keys_nodup _ _ _ ih

theorem find_map_snd (A : List (String × Ent)) (k : String)
    (hinv : ∀ p ∈ A, pyStrip p.2.text = p.1) :
    (A.map (fun p => p.2)).find? (fun e => decide (pyStrip e.text = k)) = lookupA A k := by
  induction A with
  | nil => simp [lookupA]
  | cons p A ih =>
    have hp : pyStrip p.2.text = p.1 := hinv p (List.mem_cons_self p A)
    by_cases h : p.1 = k
    · rw [List.map_cons, List.find?_cons_of_pos _ (by simp [hp, h]), lookupA_cons, if_pos h]
    · rw [List.map_cons, List.find?_cons_of_neg _ (by simp [hp, h]), lookupA_cons, if_neg h]
      exact ih (fun q hq => hinv q (List.mem_cons_of_mem p hq))

/-- C3 (amended): within a unit, mentions are deduplicated by trimmed raw
surface text before normalization and graph insertion — each raw text is
retained exactly once and every retained mention is one of the unit's
mentions — but with Python dict-comprehension semantics the mention kept for
a raw text is the LAST mention carrying it (the key merely sits at the
position of the text's first occurrence), not the first-occurring one. -/
theorem C3_dedup_keeps_last_occurrence (es : List Ent) (k : String) :
    (dedupByText es).find? (fun e => decide (pyStrip e.text = k)) =
      es.reverse.find? (fun e => decide (pyStrip e.text = k)) ∧
    ((dedupByText es).map (fun e => pyStrip e.text)).Nodup ∧
    (∀ e ∈ dedupByText es, e ∈ es) := by
  refine ⟨?_, ?_, ?_⟩
  · unfold dedupByText
    rw [find_map_snd _ _ (fun p hp => (dedupAssoc_inv es p hp).1)]
    exact dedupAssoc_lookup es k
  · unfold dedupByText
    rw [List.map_map]
    have : ((es.foldl (fun acc e => upd acc (pyStrip e.text) e) []).map
        ((fun e => pyStrip e.text) ∘ (fun p => p.2))) =
        ((es.foldl (fun acc e => upd acc (pyStrip e.text) e) []).map Prod.fst) := by
      apply List.map_congr_left
      intro p hp
      exact (dedupAssoc_inv es p hp).1
    rw [this]
    exact dedupAssoc_keys_nodup es
  · intro e he
    unfold dedupByText at he
    rcases List.mem_map.mp he with ⟨p, hp, hpe⟩
    exact hpe ▸ (dedupAssoc_inv es p hp).2

/-- C3 counterexample: two mentions with the same raw text "AWS" in one
unit; deduplication retains the second (last-occurring) one, not the
first-occurring one as claimed. -/
theorem C3_counterexample :
    dedupByText [⟨"AWS", "ORG", 0, 0⟩, ⟨"AWS", "ORG", 1, 7⟩] = [⟨"AWS", "ORG", 1, 7⟩] ∧
    (⟨"AWS", "ORG", 0, 0⟩ : Ent) ≠ ⟨"AWS", "ORG", 1, 7⟩ := by
  refine ⟨by decide, by decide⟩

theorem C3_witness :
    (⟨"AWS", "ORG", 1, 7⟩ : Ent) ∈ [(⟨"AWS", "ORG", 0, 0⟩ : Ent), ⟨"AWS", "ORG", 1, 7⟩] :=
  (C3_dedup_keeps_last_occurrence [⟨"AWS", "ORG", 0, 0⟩, ⟨"AWS", "ORG", 1, 7⟩] "AWS").2.2
    ⟨"AWS", "ORG", 1, 7⟩ (by decide)

theorem mem_addAll (xs : List String) :
    ∀ (acc : List String) (x : String), x ∈ acc ∨ x ∈ xs → x ∈ addAll acc xs := by
  induction xs with
  | nil =>
    intro acc x h
    rcases h with h | h
    · simpa [addAll] using h
    · simp at h
  | cons e xs ih =>
    intro acc x h
    have step : addAll acc (e :: xs) = addAll (if e ∈ acc then acc else acc ++ [e]) xs := by
      simp [addAll]
    rw [step]
    rcases h with h | h
    · refine ih _ x (Or.inl ?_)
      by_cases he : e ∈ acc <;> simp [he, h]
    · rcases List.mem_cons.mp h with h | h
      · refine ih _ x (Or.inl ?_)
        subst h
        by_cases he : x ∈ acc <;> simp [he]
      · exact ih _ x (Or.inr h)

theorem build_graph_aux_acc (m : List (String × String)) (dist : Nat → Nat → Option Nat) :
    ∀ (us : List (List Ent)) (idx : Nat) (g : UGraph) (acc : List String) (x : String),
      (x ∈ acc ∨ ∃ u ∈ us, x ∈ (dedupByText u).map (fun e => normalize_entity m e.text)) →
      x ∈ (build_graph_aux m dist us idx g acc).2 := by
  intro us
  induction us with
  | nil =>
    intro idx g acc x h
    rcases h with h | ⟨u, hu, _⟩
    · simpa [build_graph_aux] using h
    · simp at hu
  | cons u us ih =>
    intro idx g acc x h
    have step : build_graph_aux m dist (u :: us) idx g acc =
        build_graph_aux m dist us (idx + 1) (unit_pass m dist idx g (dedupByText u))
          (addAll acc ((dedupByText u).map (fun e => normalize_entity m e.text))) := rfl
    rw [step]
    rcases h with h | ⟨u', hu', hx⟩
    · exact ih _ _ _ x (Or.inl (mem_addAll _ _ x (Or.inl h)))
    · rcases List.mem_cons.mp hu' with h' | h'
      · exact ih _ _ _ x (Or.inl (mem_addAll _ _ x (Or.inr (h' ▸ hx))))
      · exact ih _ _ _ x (Or.inr ⟨u', h', hx⟩)

theorem build_graph_with_relations_aux_acc (m : List (String × String))
    (dist : Nat → Nat → Option Nat) :
    ∀ (us : List RUnit) (g : DiGraph) (acc : List String) (x : String),
      (x ∈ acc ∨ ∃ u ∈ us,
        x ∈ (dedupByText (extract_entities u.doc u.gaz)).map (fun e => normalize_entity m e.text)) →
      x ∈ (build_graph_with_relations_aux m dist us g acc).2 := by
  intro us
  induction us with
  | nil =>
    intro g acc x h
    rcases h with h | ⟨u, hu, _⟩
    · simpa [build_graph_with_relations_aux] using h
    · simp at hu
  | cons u us ih =>
    intro g acc x h
    have step : build_graph_with_relations_aux m dist (u :: us) g acc =
        build_graph_with_relations_aux m dist us
          (weak_pass m (strong_pass m dist g u.doc) (dedupByText (extract_entities u.doc u.gaz)))
          (addAll acc ((dedupByText (extract_entities u.doc u.gaz)).map
            (fun e => normalize_entity m e.text))) := rfl
    rw [step]
    rcases h with h | ⟨u', hu', hx⟩
    · exact ih _ _ x (Or.inl (mem_addAll _ _ x (Or.inl h)))
    · rcases List.mem_cons.mp hu' with h' | h'
      · exact ih _ _ x (Or.inl (mem_addAll _ _ x (Or.inr (h' ▸ hx))))
      · exact ih _ _ x (Or.inr ⟨u', h', hx⟩)

/-- C9: in both variants, every normalized entity label of every processed
unit is a node of the graph the builder returns — the final
`for entity in all_entities: if entity not in G.nodes(): G.add_node(entity)`
loop guarantees orphan retention before component coloring and export. -/
theorem C9_orphan_nodes_retained :
    (∀ (m : List (String × String)) (dist : Nat → Nat → Option Nat)
        (units : List (List Ent)) (u : List Ent) (x : String),
      u ∈ units → x ∈ (dedupByText u).map (fun e => normalize_entity m e.text) →
      x ∈ (build_graph m dist units).nodes) ∧
    (∀ (m : List (String × String)) (dist : Nat → Nat → Option Nat)
        (units : List RUnit) (u : RUnit) (x : String),
      u ∈ units →
      x ∈ (dedupByText (extract_entities u.doc u.gaz)).map (fun e => normalize_entity m e.text) →
      x ∈ (build_graph_with_relations m dist units).nodes) := by
  constructor
  · intro m dist units u x hu hx
    have hacc : x ∈ (build_graph_aux m dist units 1 ⟨[], []⟩ []).2 :=
      build_graph_aux_acc m dist units 1 ⟨[], []⟩ [] x (Or.inr ⟨u, hu, hx⟩)
    show x ∈ addAll (build_graph_aux m dist units 1 ⟨[], []⟩ []).1.nodes
      (build_graph_aux m dist units 1 ⟨[], []⟩ []).2
    exact mem_addAll _ _ x (Or.inr hacc)
  · intro m dist units u x hu hx
    have hacc : x ∈ (build_graph_with_relations_aux m dist units ⟨[], []⟩ []).2 :=
      build_graph_with_relations_aux_acc m dist units ⟨[], []⟩ [] x (Or.inr ⟨u, hu, hx⟩)
    show x ∈ addAll (build_graph_with_relations_aux m dist units ⟨[], []⟩ []).1.nodes
      (build_graph_with_relations_aux m dist units ⟨[], []⟩ []).2
    exact mem_addAll _ _ x (Or.inr hacc)

theorem C9_witness :
    "AWS" ∈ (build_graph [] (fun _ _ => none) [[⟨"AWS", "ORG", 0, 0⟩]]).nodes :=
  C9_orphan_nodes_retained.1 [] (fun _ _ => none) [[⟨"AWS", "ORG", 0, 0⟩]]
    [⟨"AWS", "ORG", 0, 0⟩] "AWS" (by decide) (by decide)

theorem foldl_ite_append {α β : Type} (c : α → Bool) (B : α → List β) :
    ∀ (l : List α) (acc : List β),
      l.foldl (fun a x => if c x then a ++ B x else a) acc =
        acc ++ l.flatMap (fun x => if c x then B x else []) := by
  intro l
  induction l with
  | nil => intro acc; simp
  | cons x l ih =>
    intro acc
    by_cases hc : c x = true
    · simp only [List.foldl_cons, List.flatMap_cons, hc, if_true]
      rw [ih, List.append_assoc]
    · simp only [List.foldl_cons, List.flatMap_cons, hc, if_false]
      rw [ih]
      simp

theorem relation_triple_eq_some (dist : Nat → Nat → Option Nat) (rel : String)
    (pr : Ent × Ent) (t : String × String × String) :
    relation_triple dist rel pr = some t ↔
      (∃ d, dist pr.1.root pr.2.root = some d ∧ d ≤ MAX_DEP_DISTANCE) ∧
        t = (pr.1.text, rel, pr.2.text) := by
  unfold relation_triple
  rcases hd : dist pr.1.root pr.2.root with _ | d
  · simp
  · by_cases hle : d ≤ MAX_DEP_DISTANCE
    · simp only [hle, if_true]
      constructor
      · intro h
        exact ⟨⟨d, rfl, hle⟩, (Option.some.injEq _ _ ▸ h : _ = t).symm⟩
      · rintro ⟨_, rfl⟩
        rfl
    · simp only [hle, if_false]
      constructor
      · intro h; exact Option.noConfusion h
      · rintro ⟨⟨d', hd', hle'⟩, _⟩
        exact absurd ((Option.some.injEq _ _ ▸ hd' : d = d') ▸ hle') hle

theorem extract_relations_eq (dist : Nat → Nat → Option Nat) (es : List Ent)
    (toks : List RToken) :
    extract_relations_in_sentence dist es toks =
      if es.length < 2 then [] else
        toks.flatMap (fun token => RELATION_PATTERNS.flatMap (fun pat =>
          if pat.2.contains (pyLower token.lemma_) then
            (pairsOf es).filterMap (relation_triple dist pat.1)
          else [])) := by
  unfold extract_relations_in_sentence
  by_cases h : es.length < 2
  · simp [h]
  · simp only [if_neg h]
    suffices hs : ∀ (tl : List RToken) (acc : List (String × String × String)),
        tl.foldl (fun relations token =>
          RELATION_PATTERNS.foldl (fun relations pat =>
            if pat.2.contains (pyLower token.lemma_) then
              relations ++ (pairsOf es).filterMap (relation_triple dist pat.1)
            else relations) relations) acc =
          acc ++ tl.flatMap (fun token => RELATION_PATTERNS.flatMap (fun pat =>
            if pat.2.contains (pyLower token.lemma_) then
              (pairsOf es).filterMap (relation_triple dist pat.1)
            else [])) by
      simpa using hs toks []
    intro tl
    induction tl with
    | nil => intro acc; simp
    | cons t tl ih =>
      intro acc
      simp only [List.foldl_cons, List.flatMap_cons]
      rw [foldl_ite_append (fun pat => pat.2.contains (pyLower t.lemma_))
        (fun pat => (pairsOf es).filterMap (relation_triple dist pat.1)) RELATION_PATTERNS acc]
      rw [ih, List.append_assoc]

theorem pairsOf_short {α : Type} (l : List α) (h : l.length < 2) : pairsOf l = [] := by
  match l, h with
  | [], _ => rfl
  | [x], _ => rfl

theorem mem_pairsOf {α : Type} (l : List α) (p : α × α) :
    p ∈ pairsOf l ↔
      ∃ i j, i < j ∧ j < l.length ∧ l.get? i = some p.1 ∧ l.get? j = some p.2 := by
  induction l with
  | nil => simp [pairsOf]
  | cons x xs ih =>
    constructor
    · intro h
      rcases List.mem_append.mp h with h | h
      · rcases List.mem_map.mp h with ⟨y, hy, hxy⟩
        rcases List.mem_iff_get?.mp hy with ⟨n, hn⟩
        rcases List.get?_eq_some.mp hn with ⟨hlt, _⟩
        refine ⟨0, n + 1, Nat.succ_pos n, Nat.succ_lt_succ hlt, ?_, ?_⟩
        · simp [← hxy]
        · simpa [← hxy] using hn
      · rcases (ih).mp h with ⟨i, j, hij, hjl, h1, h2⟩
        exact ⟨i + 1, j + 1, Nat.succ_lt_succ hij, Nat.succ_lt_succ hjl, by simpa using h1,
          by simpa using h2⟩
    · rintro ⟨i, j, hij, hjl, h1, h2⟩
      cases i with
      | zero =>
        cases j with
        | zero => exact absurd hij (Nat.lt_irrefl 0)
        | succ j' =>
          refine List.mem_append.mpr (Or.inl ?_)
          refine List.mem_map.mpr ⟨p.2, List.get?_mem (by simpa using h2), ?_⟩
          have hx : x = p.1 := by simpa using h1
          rw [hx]
      | succ i' =>
        cases j with
        | zero => exact absurd hij (Nat.not_lt_zero _)
        | succ j' =>
          refine List.mem_append.mpr (Or.inr ?_)
          exact (ih).mpr ⟨i', j', Nat.lt_of_succ_lt_succ hij, Nat.lt_of_succ_lt_succ hjl,
            by simpa using h1, by simpa using h2⟩

theorem mem_ite_nil {γ : Type} (c : Bool) (l : List γ) (a : γ) :
    (a ∈ (if c then l else [])) ↔ (c = true ∧ a ∈ l) := by
  cases c <;> simp

theorem mem_extract_relations (dist : Nat → Nat → Option Nat) (es : List Ent)
    (toks : List RToken) (t : String × String × String) :
    t ∈ extract_relations_in_sentence dist es toks ↔
      ∃ token ∈ toks, ∃ pat ∈ RELATION_PATTERNS,
        pat.2.contains (pyLower token.lemma_) = true ∧
        ∃ pr ∈ pairsOf es,
          (∃ d, dist pr.1.root pr.2.root = some d ∧ d ≤ MAX_DEP_DISTANCE) ∧
          t = (pr.1.text, pat.1, pr.2.text) := by
  rw [extract_relations_eq]
  by_cases h : es.length < 2
  · rw [if_pos h]
    simp [pairsOf_short es h]
  · rw [if_neg h]
    constructor
    · intro ht
      rcases List.mem_flatMap.mp ht with ⟨token, htok, ht2⟩
      rcases List.mem_flatMap.mp ht2 with ⟨pat, hpat, ht3⟩
      rcases (mem_ite_nil _ _ _).mp ht3 with ⟨hc, ht4⟩
      rcases List.mem_filterMap.mp ht4 with ⟨pr, hpr, hsome⟩
      rcases (relation_triple_eq_some dist pat.1 pr t).mp hsome with ⟨hd, hteq⟩
      exact ⟨token, htok, pat, hpat, hc, pr, hpr, hd, hteq⟩
    · rintro ⟨token, htok, pat, hpat, hc, pr, hpr, hd, hteq⟩
      refine List.mem_flatMap.mpr ⟨token, htok, ?_⟩
      refine List.mem_flatMap.mpr ⟨pat, hpat, ?_⟩
      refine (mem_ite_nil _ _ _).mpr ⟨hc, ?_⟩
      refine List.mem_filterMap.mpr ⟨pr, hpr, ?_⟩
      exact (relation_triple_eq_some dist pat.1 pr t).mpr ⟨hd, hteq⟩

theorem mem_of_containsStr {l : List String} {a : String} (h : l.contains a = true) : a ∈ l :=
  List.elem_iff.mp h

theorem matchedKinds_unique (lemma_lower : String) :
    ∀ k1 k2, k1 ∈ matchedKinds lemma_lower → k2 ∈ matchedKinds lemma_lower → k1 = k2 := by
  intro k1 k2 h1 h2
  simp only [matchedKinds, List.mem_map, List.mem_filter] at h1 h2
  rcases h1 with ⟨pat1, ⟨hmem1, hc1⟩, hk1⟩
  rcases h2 with ⟨pat2, ⟨hmem2, hc2⟩, hk2⟩
  subst hk1; subst hk2
  fin_cases hmem1 <;> fin_cases hmem2 <;>
    first
      | rfl
      | (exfalso
         have h1m := mem_of_containsStr hc1
         fin_cases h1m <;> exact absurd hc2 (by decide))

/-- C4: the trigger sets of `RELATION_PATTERNS` are pairwise disjoint, so the
`for rel_label, verbs in RELATION_PATTERNS.items()` loop fires for at most
one relation kind per token (the conditional tie-break of the claim is
vacuous: no lemma belongs to two sets), and consequently a single token never
contributes relation triples with two different kinds. -/
theorem C4_token_emits_at_most_one_kind :
    (∀ (lemma_lower k1 k2 : String), k1 ∈ matchedKinds lemma_lower →
      k2 ∈ matchedKinds lemma_lower → k1 = k2) ∧
    (∀ (dist : Nat → Nat → Option Nat) (es : List Ent) (token : RToken)
        (t1 t2 : String × String × String),
      t1 ∈ extract_relations_in_sentence dist es [token] →
      t2 ∈ extract_relations_in_sentence dist es [token] →
      t1.2.1 = t2.2.1) := by
  constructor
  · exact fun l => matchedKinds_unique l
  · intro dist es token t1 t2 h1 h2
    rcases (mem_extract_relations dist es [token] t1).mp h1 with
      ⟨tok1, htok1, pat1, hpat1, hc1, pr1, _, _, hteq1⟩
    rcases (mem_extract_relations dist es [token] t2).mp h2 with
      ⟨tok2, htok2, pat2, hpat2, hc2, pr2, _, _, hteq2⟩
    have e1 : tok1 = token := List.mem_singleton.mp htok1
    have e2 : tok2 = token := List.mem_singleton.mp htok2
    rw [e1] at hc1
    rw [e2] at hc2
    have hm1 : pat1.1 ∈ matchedKinds (pyLower token.lemma_) :=
      List.mem_map.mpr ⟨pat1, List.mem_filter.mpr ⟨hpat1, hc1⟩, rfl⟩
    have hm2 : pat2.1 ∈ matchedKinds (pyLower token.lemma_) :=
      List.mem_map.mpr ⟨pat2, List.mem_filter.mpr ⟨hpat2, hc2⟩, rfl⟩
    rw [hteq1, hteq2]
    exact matchedKinds_unique (pyLower token.lemma_) pat1.1 pat2.1 hm1 hm2

theorem C4_witness :
    (("AWS", "regulates", "Docker") : String × String × String).2.1 =
      (("AWS", "regulates", "Docker") : String × String × String).2.1 :=
  C4_token_emits_at_most_one_kind.2 (fun _ _ => some 1)
    [⟨"AWS", "ORG", 0, 0⟩, ⟨"Docker", "ORG", 0, 1⟩] ⟨"regulate"⟩
    ("AWS", "regulates", "Docker") ("AWS", "regulates", "Docker")
    (by decide) (by decide)

/-- C2 (amended): the verb-triggered directed edges of a sentence are
generated exactly from the combinations of two entities of the sentence's
full parser entity list `sent.ents` — not from the unit's allow-list
filtered, gazetteer-supplemented, deduplicated entity set of steps 1-3 —
whenever some token's lowercase lemma lies in a relation pattern's trigger
set and the pair's root-token dependency distance is defined and at most 3;
`strong_pass` then inserts each resulting triple as a directed edge between
the normalized endpoint texts. -/
theorem C2_strong_edges_characterization (dist : Nat → Nat → Option Nat)
    (es : List Ent) (toks : List RToken) (t : String × String × String) :
    t ∈ extract_relations_in_sentence dist es toks ↔
      ∃ token ∈ toks, ∃ pat ∈ RELATION_PATTERNS,
        pat.2.contains (pyLower token.lemma_) = true ∧
        ∃ i j e1 e2, i < j ∧ j < es.length ∧ es.get? i = some e1 ∧ es.get? j = some e2 ∧
          (∃ d, dist e1.root e2.root = some d ∧ d ≤ MAX_DEP_DISTANCE) ∧
          t = (e1.text, pat.1, e2.text) := by
  rw [mem_extract_relations]
  constructor
  · rintro ⟨token, htok, pat, hpat, hc, pr, hpr, hd, hteq⟩
    rcases (mem_pairsOf es pr).mp hpr with ⟨i, j, hij, hjl, h1, h2⟩
    exact ⟨token, htok, pat, hpat, hc, i, j, pr.1, pr.2, hij, hjl, h1, h2, hd, hteq⟩
  · rintro ⟨token, htok, pat, hpat, hc, i, j, e1, e2, hij, hjl, h1, h2, hd, hteq⟩
    refine ⟨token, htok, pat, hpat, hc, (e1, e2), ?_, hd, hteq⟩
    exact (mem_pairsOf es (e1, e2)).mpr ⟨i, j, hij, hjl, h1, h2⟩

/-- C2 counterexample: a sentence containing an ORG entity "AWS" and a
PERSON entity "Bob" (PERSON is outside the allow-list, so "Bob" is not in
the unit's steps 1-3 entity set) together with the trigger lemma "use" and
dependency distance 1 produces the directed edge AWS→Bob labeled `uses` —
a verb-triggered edge whose endpoint is not drawn from the steps 1-3 set,
refuting the claim as stated. -/
theorem C2_counterexample :
    (build_graph_with_relations [] (fun _ _ => some 1)
        [⟨⟨[⟨0, [⟨"use"⟩]⟩], [⟨"AWS", "ORG", 0, 0⟩, ⟨"Bob", "PERSON", 0, 1⟩]⟩, []⟩]).lookupEdge
        "AWS" "Bob" = some "uses" ∧
    "Bob" ∉ ((dedupByText (extract_entities
        ⟨[⟨0, [⟨"use"⟩]⟩], [⟨"AWS", "ORG", 0, 0⟩, ⟨"Bob", "PERSON", 0, 1⟩]⟩ [])).map
      (fun e => normalize_entity [] e.text)) :=
  ⟨by decide, by decide⟩
